import Mathlib

/-!
A verification development for the `set` Go package (mark-summerfield/set):
a generic set container backed by a hash map `map[E]struct{}`.

The repository ships the container in variants:

* an equality-only ("comparable") variant, embedded here as `USet`:
  the backing map is modelled as the list of its keys in enumeration order;
* a totally-ordered variant, embedded here as `OSet`: `ToSlice` sorts
  ascending and `String` truncates above `MaxDisplayableElements`.

A map write `m[k] = struct{}{}` is modelled by `insertKey` (append the key
unless present), a map delete by `eraseKey`, membership by list membership.

Two further models refine particular aspects:

* `Heap`-based operations (`hAdd`, `hClone`, ...) make the backing store a
  heap cell addressed by a reference, so that aliasing and frame properties
  (which pure values cannot express) become provable: `maps.Clone` allocates
  a fresh cell, mutators write through their receiver's reference only.
* `ZSet` distinguishes the nil map of a zero-value `Set` (`none`) from an
  allocated empty map (`some []`): in Go, writing to a nil map panics while
  reading treats it as empty, so the write operations return `Option`
  (`none` models the panic).
-/

set_option autoImplicit false

variable {E : Type} [DecidableEq E]

/-- Model of the map write `m[element] = struct{}{}` on a backing store in
enumeration order: inserting an existing key leaves the store unchanged,
a new key is appended at the end of the enumeration. -/
def insertKey (l : List E) (x : E) : List E :=
  if x ∈ l then l else l ++ [x]

/-- Model of `delete(m, element)`: the key is removed from the store. -/
def eraseKey (l : List E) (x : E) : List E :=
  l.filter (fun k => !(k == x))

/-- Loop body shared by `Difference`, `SymmetricDifference` and
`Intersection`: insert the key into the freshly built map when the guard
holds, else skip it. -/
def selInsert (p : E → Bool) (acc : List E) (x : E) : List E :=
  if p x then insertKey acc x else acc

/-- The rendering loop of `String()`: starting from `out = "{"` and
`sep = ""`, append `sep` and the formatted element, setting `sep = " "`;
finally close the brace.  The host formatting verbs (`%v`, `%q`) are
abstracted as the parameter `f`. -/
def renderElems (f : E → String) (elements : List E) : String :=
  (elements.foldl (fun acc e => (acc.1 ++ acc.2 ++ f e, " ")) ("\x7b", "")).1
    ++ "\x7d"

/-- Model of `maps.Equal` on pure key stores: the maps have equal length
and every key of the first is a key of the second (values are `struct{}`
and always compare equal). -/
def mapsEqual (l₁ l₂ : List E) : Bool :=
  l₁.length == l₂.length && l₁.all (fun x => l₂.contains x)

/-- The comparable variant `Set[E comparable]`: the backing map
`map[E]struct{}` is modelled by the list of its keys in enumeration
order. -/
structure USet (E : Type) where
  set : List E

/-- Model of `New`: make an empty map, then `Add` the given elements. -/
def USet.New (elements : List E) : USet E :=
  ⟨elements.foldl insertKey []⟩

/-- Model of `Add`: write each element into the backing map. -/
def USet.Add (me : USet E) (elements : List E) : USet E :=
  ⟨elements.foldl insertKey me.set⟩

/-- Model of `Delete`: delete each element from the backing map. -/
def USet.Delete (me : USet E) (elements : List E) : USet E :=
  ⟨elements.foldl eraseKey me.set⟩

/-- Model of `Clear`: `clear(me.set)` empties the map. -/
def USet.Clear (_me : USet E) : USet E :=
  ⟨[]⟩

/-- Model of `Len`: `len(me.set)`. -/
def USet.Len (me : USet E) : Nat :=
  me.set.length

/-- Model of `IsEmpty`: `len(me.set) == 0`. -/
def USet.IsEmpty (me : USet E) : Bool :=
  me.set.length == 0

/-- Model of `Contains`: key lookup in the backing map. -/
def USet.Contains (me : USet E) (x : E) : Bool :=
  me.set.contains x

/-- Model of `Difference`: start from `New[E]()` and insert every key of
the receiver that is not a key of `other`. -/
def USet.Difference (me other : USet E) : USet E :=
  ⟨me.set.foldl (selInsert fun x => !(other.set.contains x)) []⟩

/-- Model of `SymmetricDifference`: start from `New[E]()`, insert the keys
of the receiver absent from `other`, then the keys of `other` absent from
the receiver. -/
def USet.SymmetricDifference (me other : USet E) : USet E :=
  ⟨other.set.foldl (selInsert fun x => !(me.set.contains x))
    (me.set.foldl (selInsert fun x => !(other.set.contains x)) [])⟩

/-- Model of `Intersection`: start from `New[E]()` and insert every key of
the receiver that is also a key of `other`. -/
def USet.Intersection (me other : USet E) : USet E :=
  ⟨me.set.foldl (selInsert fun x => other.set.contains x) []⟩

/-- Model of `Clone`: `maps.Clone` copies the key mapping (as a value the
copy has the same keys in the same enumeration order). -/
def USet.Clone (me : USet E) : USet E :=
  ⟨me.set⟩

/-- Model of `Unite`: write every key of `other` into the receiver's map. -/
def USet.Unite (me other : USet E) : USet E :=
  ⟨other.set.foldl insertKey me.set⟩

/-- Model of `Union`: clone the receiver, then `Unite` the clone with
`other`. -/
def USet.Union (me other : USet E) : USet E :=
  (me.Clone).Unite other

/-- Model of `Equal`, i.e. `maps.Equal`: the maps have equal length and
every key of the receiver is a key of `other` (values are `struct{}` and
always equal). -/
def USet.Equal (me other : USet E) : Bool :=
  mapsEqual me.set other.set

/-- Model of `IsDisjoint`: return false on the first key of the receiver
found in `other`, i.e. no key of the receiver is a key of `other`. -/
def USet.IsDisjoint (me other : USet E) : Bool :=
  me.set.all (fun x => !(other.set.contains x))

/-- Model of `IsSubsetOf`: every key of the receiver is a key of `other`. -/
def USet.IsSubsetOf (me other : USet E) : Bool :=
  me.set.all (fun x => other.set.contains x)

/-- Model of `IsSupersetOf`: defined as `other.IsSubsetOf(me)`. -/
def USet.IsSupersetOf (me other : USet E) : Bool :=
  other.IsSubsetOf me

/-- Model of `ToSlice`: the keys in enumeration order (unsorted). -/
def USet.ToSlice (me : USet E) : List E :=
  me.set

/-- Model of `All`: the sequence of elements yielded by the iterator, in
enumeration order. -/
def USet.All (me : USet E) : List E :=
  me.set

/-- Model of `String()` at a given enumeration order of the backing map:
Go does not specify the order in which `range` visits map keys, so any
permutation of the key set is an admissible `order`.  The loop renders
`ToSlice` (the enumeration) between braces, space separated. -/
def USet.StringRepAt (f : E → String) (_me : USet E) (order : List E) :
    String :=
  renderElems f order

/-- Model of `String()` read at the backing store's current enumeration
order. -/
def USet.StringRep (f : E → String) (me : USet E) : String :=
  me.StringRepAt f me.set

/-- An admissible iteration order of the backing map: Go guarantees only
that `range` visits each key exactly once, in an unspecified order. -/
def USet.IterAdmissible (me : USet E) (order : List E) : Prop :=
  order.Perm me.set

/-- The ordered variant `Set[E cmp.Ordered]`: same backing store model,
but `ToSlice` sorts ascending and `String` truncates above
`MaxDisplayableElements`. -/
structure OSet (E : Type) where
  set : List E

/-- Model of the package variable `MaxDisplayableElements = 100` (its
default value; `String` below takes the current value as a parameter). -/
def MaxDisplayableElements : Nat := 100

/-- Model of the ordered variant's `New`: make an empty map, then `Add`. -/
def OSet.New (elements : List E) : OSet E :=
  ⟨elements.foldl insertKey []⟩

/-- Model of the ordered variant's `Add`. -/
def OSet.Add (me : OSet E) (elements : List E) : OSet E :=
  ⟨elements.foldl insertKey me.set⟩

/-- Model of the ordered variant's `Len`. -/
def OSet.Len (me : OSet E) : Nat :=
  me.set.length

/-- Model of the ordered variant's `Contains`. -/
def OSet.Contains (me : OSet E) (x : E) : Bool :=
  me.set.contains x

/-- Model of the ordered variant's `Equal` (`maps.Equal`). -/
def OSet.Equal (me other : OSet E) : Bool :=
  mapsEqual me.set other.set

/-- Model of the ordered variant's `ToSlice`: collect the keys, then
`slices.Sort` the result ascending.  Sorting makes the enumeration order
of the backing map irrelevant, so the result is a function of the key
set alone. -/
def OSet.ToSlice [LinearOrder E] (me : OSet E) : List E :=
  List.insertionSort (· ≤ ·) me.set

/-- Model of the ordered variant's `String()` with threshold `maxDisp`
(the current value of `MaxDisplayableElements`): if the element count
exceeds the threshold, render `{…N elements…}` with N the count;
otherwise sort the elements ascending and render them between braces,
space separated. -/
def OSet.StringRep [LinearOrder E] (f : E → String) (maxDisp : Nat)
    (me : OSet E) : String :=
  if me.set.length > maxDisp then
    "\x7b…" ++ toString me.set.length ++ " elements…\x7d"
  else
    renderElems f (List.insertionSort (· ≤ ·) me.ToSlice)

/-- A heap of backing maps: Go maps are reference values, so to express
aliasing and frame properties the store is made explicit.  Cell `r` holds
the key list of the map referenced by `r`; a dangling or nil reference
reads as the empty key list. -/
abbrev Heap (E : Type) : Type := List (List E)

/-- Read the backing map referenced by `r` (nil maps read as empty). -/
def readMap (h : Heap E) (r : Nat) : List E :=
  h.getD r []

/-- Write the backing map referenced by `r`. -/
def writeMap (h : Heap E) (r : Nat) (l : List E) : Heap E :=
  h.set r l

/-- Allocate a fresh backing map holding `l`; returns the new heap and the
fresh reference. -/
def allocMap (h : Heap E) (l : List E) : Heap E × Nat :=
  (h ++ [l], h.length)

/-- Heap model of `New`: allocate a fresh map and add the elements. -/
def hNew (h : Heap E) (elements : List E) : Heap E × Nat :=
  allocMap h (elements.foldl insertKey [])

/-- Heap model of `Add`: write through the receiver's reference. -/
def hAdd (h : Heap E) (r : Nat) (elements : List E) : Heap E :=
  writeMap h r (elements.foldl insertKey (readMap h r))

/-- Heap model of `Delete`. -/
def hDelete (h : Heap E) (r : Nat) (elements : List E) : Heap E :=
  writeMap h r (elements.foldl eraseKey (readMap h r))

/-- Heap model of `Clear`. -/
def hClear (h : Heap E) (r : Nat) : Heap E :=
  writeMap h r []

/-- Heap model of `Clone`: `maps.Clone` allocates a fresh map and copies
the keys of the receiver's map into it — never a shared reference. -/
def hClone (h : Heap E) (r : Nat) : Heap E × Nat :=
  allocMap h (readMap h r)

/-- Heap model of `Unite`: write the union through the receiver's
reference; `other` is only read. -/
def hUnite (h : Heap E) (r rOther : Nat) : Heap E :=
  writeMap h r ((readMap h rOther).foldl insertKey (readMap h r))

/-- Heap model of `Union`: clone the receiver, then unite the clone with
`other`; both operands are only read. -/
def hUnion (h : Heap E) (r rOther : Nat) : Heap E × Nat :=
  let c := hClone h r
  (hUnite c.1 c.2 rOther, c.2)

/-- Heap model of `Difference`: allocate the result with `New[E]()` and
insert into it the keys of the receiver absent from `other`; both
operands are only read. -/
def hDifference (h : Heap E) (r rOther : Nat) : Heap E × Nat :=
  let d := hNew h []
  (writeMap d.1 d.2
    ((readMap h r).foldl (selInsert fun x => !((readMap h rOther).contains x))
      []), d.2)

/-- Heap model of `SymmetricDifference`. -/
def hSymmetricDifference (h : Heap E) (r rOther : Nat) : Heap E × Nat :=
  let d := hNew h []
  (writeMap d.1 d.2
    ((readMap h rOther).foldl (selInsert fun x => !((readMap h r).contains x))
      ((readMap h r).foldl
        (selInsert fun x => !((readMap h rOther).contains x)) [])), d.2)

/-- Heap model of `Intersection`. -/
def hIntersection (h : Heap E) (r rOther : Nat) : Heap E × Nat :=
  let d := hNew h []
  (writeMap d.1 d.2
    ((readMap h r).foldl (selInsert fun x => (readMap h rOther).contains x)
      []), d.2)

/-- The zero-value-aware model of the comparable variant: a declared-but-
not-constructed `Set` has a nil backing map (`none`); `New` allocates, so
it always yields `some`.  Reading a nil map treats it as empty; writing
to it panics, which the write operations model by returning `none`. -/
structure ZSet (E : Type) where
  set : Option (List E)

/-- The keys read from a possibly-nil backing map (nil reads as empty). -/
def ZSet.keys (me : ZSet E) : List E :=
  me.set.getD []

/-- Nil-aware model of `New`: `make(map[E]struct{}, len(elements))` always
allocates, then the elements are added (writes into an allocated map never
panic). -/
def ZSet.New (elements : List E) : ZSet E :=
  ⟨some (elements.foldl insertKey [])⟩

/-- Nil-aware model of `Add`: each element is written into the backing
map; the first write to a nil map panics (`none`).  With zero elements the
loop body never runs, so even a nil map is left intact. -/
def ZSet.Add (me : ZSet E) (elements : List E) : Option (ZSet E) :=
  match me.set with
  | some l => some ⟨some (elements.foldl insertKey l)⟩
  | none => if elements.isEmpty then some ⟨none⟩ else none

/-- Nil-aware model of `Delete`: `delete` on a nil map is a no-op, so this
never panics. -/
def ZSet.Delete (me : ZSet E) (elements : List E) : ZSet E :=
  match me.set with
  | some l => ⟨some (elements.foldl eraseKey l)⟩
  | none => ⟨none⟩

/-- Nil-aware model of `Clear`: `clear` of a nil map is a no-op. -/
def ZSet.Clear (me : ZSet E) : ZSet E :=
  match me.set with
  | some _ => ⟨some []⟩
  | none => ⟨none⟩

/-- Nil-aware model of `Len`: `len` of a nil map is 0. -/
def ZSet.Len (me : ZSet E) : Nat :=
  me.keys.length

/-- Nil-aware model of `IsEmpty`. -/
def ZSet.IsEmpty (me : ZSet E) : Bool :=
  me.keys.length == 0

/-- Nil-aware model of `Contains`: lookup in a nil map returns absent. -/
def ZSet.Contains (me : ZSet E) (x : E) : Bool :=
  me.keys.contains x

/-- Nil-aware model of `Difference`: the result map is built by `New[E]()`
(allocated), and both operands are only read, so this never panics. -/
def ZSet.Difference (me other : ZSet E) : ZSet E :=
  ⟨some (me.keys.foldl (selInsert fun x => !(other.keys.contains x)) [])⟩

/-- Nil-aware model of `SymmetricDifference`: never panics. -/
def ZSet.SymmetricDifference (me other : ZSet E) : ZSet E :=
  ⟨some (other.keys.foldl (selInsert fun x => !(me.keys.contains x))
    (me.keys.foldl (selInsert fun x => !(other.keys.contains x)) []))⟩

/-- Nil-aware model of `Intersection`: never panics. -/
def ZSet.Intersection (me other : ZSet E) : ZSet E :=
  ⟨some (me.keys.foldl (selInsert fun x => other.keys.contains x) [])⟩

/-- Nil-aware model of `Clone`: `maps.Clone` of a nil map is nil. -/
def ZSet.Clone (me : ZSet E) : ZSet E :=
  match me.set with
  | some l => ⟨some l⟩
  | none => ⟨none⟩

/-- Nil-aware model of `Unite`: writes every key of `other` into the
receiver's map, panicking (`none`) when the receiver's map is nil and
`other` has at least one key. -/
def ZSet.Unite (me other : ZSet E) : Option (ZSet E) :=
  match me.set with
  | some l => some ⟨some (other.keys.foldl insertKey l)⟩
  | none => if other.keys.isEmpty then some ⟨none⟩ else none

/-- Nil-aware model of `Union`: clone the receiver, then unite the clone;
panics exactly when `Unite` on the clone does. -/
def ZSet.Union (me other : ZSet E) : Option (ZSet E) :=
  (me.Clone).Unite other

/-- Nil-aware model of the iterator `All`: ranging over a nil map yields
nothing and never panics. -/
def ZSet.All (me : ZSet E) : List E :=
  me.keys

/-- Nil-aware model of `ToSlice`: never panics. -/
def ZSet.ToSlice (me : ZSet E) : List E :=
  me.keys

/-- Nil-aware model of `String()` at an enumeration order: only reads, so
it never panics. -/
def ZSet.StringRep (f : E → String) (me : ZSet E) : String :=
  renderElems f me.keys

theorem mem_insertKey {l : List E} {x y : E} :
    y ∈ insertKey l x ↔ y = x ∨ y ∈ l := by
  unfold insertKey
  by_cases hx : x ∈ l
  · rw [if_pos hx]
    exact ⟨Or.inr, fun h => h.elim (fun he => he ▸ hx) id⟩
  · rw [if_neg hx]
    simp [or_comm]

theorem insertKey_of_mem {l : List E} {x : E} (h : x ∈ l) :
    insertKey l x = l := by
  simp [insertKey, h]

theorem nodup_insertKey {l : List E} (h : l.Nodup) (x : E) :
    (insertKey l x).Nodup := by
  unfold insertKey
  by_cases hx : x ∈ l
  · rwa [if_pos hx]
  · rw [if_neg hx]
    exact h.append (List.nodup_singleton x)
      (fun a ha hax => hx ((List.mem_singleton.mp hax) ▸ ha))

theorem mem_foldl_insertKey {elements : List E} {acc : List E} {y : E} :
    y ∈ elements.foldl insertKey acc ↔ y ∈ acc ∨ y ∈ elements := by
  induction elements generalizing acc with
  | nil => simp
  | cons e es ih =>
    simp only [List.foldl_cons, ih, mem_insertKey, List.mem_cons]
    tauto

theorem nodup_foldl_insertKey {elements : List E} {acc : List E}
    (h : acc.Nodup) : (elements.foldl insertKey acc).Nodup := by
  induction elements generalizing acc with
  | nil => simpa
  | cons e es ih => exact ih (nodup_insertKey h e)

theorem foldl_insertKey_of_subset {elements : List E} {acc : List E}
    (h : ∀ x ∈ elements, x ∈ acc) : elements.foldl insertKey acc = acc := by
  induction elements with
  | nil => rfl
  | cons e es ih =>
    rw [List.foldl_cons, insertKey_of_mem (h e (by simp))]
    exact ih fun x hx => h x (by simp [hx])

theorem mem_foldl_selInsert {p : E → Bool} {elements : List E}
    {acc : List E} {y : E} :
    y ∈ elements.foldl (selInsert p) acc
      ↔ y ∈ acc ∨ (y ∈ elements ∧ p y = true) := by
  induction elements generalizing acc with
  | nil => simp
  | cons e es ih =>
    simp only [List.foldl_cons, ih, List.mem_cons]
    unfold selInsert
    by_cases hp : p e = true
    · simp only [hp, if_pos, mem_insertKey]
      constructor
      · rintro (⟨rfl | hy⟩ | hy) <;> tauto
      · rintro (hy | ⟨rfl | hy, hpy⟩) <;> tauto
    · simp only [hp, if_neg, Bool.false_eq_true]
      constructor
      · rintro (hy | hy) <;> tauto
      · rintro (hy | ⟨rfl | hy, hpy⟩) <;> tauto

theorem nodup_foldl_selInsert {p : E → Bool} {elements : List E}
    {acc : List E} (h : acc.Nodup) :
    (elements.foldl (selInsert p) acc).Nodup := by
  induction elements generalizing acc with
  | nil => simpa
  | cons e es ih =>
    refine ih ?_
    unfold selInsert
    by_cases hp : p e = true <;> simp [hp, h, nodup_insertKey]

theorem mem_eraseKey {l : List E} {x y : E} :
    y ∈ eraseKey l x ↔ y ∈ l ∧ y ≠ x := by
  simp [eraseKey]

theorem mem_foldl_eraseKey {elements : List E} {l : List E} {y : E} :
    y ∈ elements.foldl eraseKey l ↔ y ∈ l ∧ y ∉ elements := by
  induction elements generalizing l with
  | nil => simp
  | cons e es ih =>
    simp only [List.foldl_cons, ih, mem_eraseKey, List.mem_cons]
    tauto

theorem mapsEqual_iff {l₁ l₂ : List E} (h₁ : l₁.Nodup) (h₂ : l₂.Nodup) :
    mapsEqual l₁ l₂ = true ↔ ∀ x, x ∈ l₁ ↔ x ∈ l₂ := by
  unfold mapsEqual
  rw [Bool.and_eq_true, beq_iff_eq, List.all_eq_true]
  constructor
  · rintro ⟨hlen, hsub⟩
    have hss : l₁ ⊆ l₂ := fun x hx => by
      simpa using hsub x hx
    exact fun x => ((h₁.subperm hss).perm_of_length_le (le_of_eq hlen.symm)).mem_iff
  · intro hiff
    have hperm := (List.perm_ext_iff_of_nodup h₁ h₂).mpr hiff
    exact ⟨hperm.length_eq, fun x hx => by simpa using (hiff x).mp hx⟩

theorem mapsEqual_self {l : List E} : mapsEqual l l = true := by
  simp [mapsEqual]

theorem USet.Contains_iff {A : USet E} {x : E} :
    A.Contains x = true ↔ x ∈ A.set := by
  simp [USet.Contains]

theorem USet.mem_New {elements : List E} {x : E} :
    x ∈ (USet.New elements).set ↔ x ∈ elements := by
  simp [USet.New, mem_foldl_insertKey]

theorem USet.nodup_New {elements : List E} :
    (USet.New elements).set.Nodup :=
  nodup_foldl_insertKey List.nodup_nil

theorem USet.mem_Difference {A B : USet E} {x : E} :
    x ∈ (A.Difference B).set ↔ x ∈ A.set ∧ x ∉ B.set := by
  simp [USet.Difference, mem_foldl_selInsert]

theorem USet.nodup_Difference {A B : USet E} :
    (A.Difference B).set.Nodup :=
  nodup_foldl_selInsert List.nodup_nil

theorem USet.mem_SymmetricDifference {A B : USet E} {x : E} :
    x ∈ (A.SymmetricDifference B).set
      ↔ (x ∈ A.set ∧ x ∉ B.set) ∨ (x ∈ B.set ∧ x ∉ A.set) := by
  simp only [USet.SymmetricDifference, mem_foldl_selInsert,
    List.elem_eq_mem, Bool.not_eq_eq_eq_not, Bool.not_true,
    decide_eq_false_iff_not, List.not_mem_nil, false_or]

theorem USet.nodup_SymmetricDifference {A B : USet E} :
    (A.SymmetricDifference B).set.Nodup :=
  nodup_foldl_selInsert (nodup_foldl_selInsert List.nodup_nil)

theorem USet.mem_Intersection {A B : USet E} {x : E} :
    x ∈ (A.Intersection B).set ↔ x ∈ A.set ∧ x ∈ B.set := by
  simp [USet.Intersection, mem_foldl_selInsert]

theorem USet.nodup_Intersection {A B : USet E} :
    (A.Intersection B).set.Nodup :=
  nodup_foldl_selInsert List.nodup_nil

theorem USet.mem_Union {A B : USet E} {x : E} :
    x ∈ (A.Union B).set ↔ x ∈ A.set ∨ x ∈ B.set := by
  simp [USet.Union, USet.Unite, USet.Clone, mem_foldl_insertKey, or_comm]

theorem USet.nodup_Union {A B : USet E} (hA : A.set.Nodup) :
    (A.Union B).set.Nodup :=
  nodup_foldl_insertKey hA

theorem USet.IsSubsetOf_iff {A B : USet E} :
    A.IsSubsetOf B = true ↔ ∀ x ∈ A.set, x ∈ B.set := by
  simp [USet.IsSubsetOf, List.all_eq_true]

theorem USet.IsDisjoint_iff {A B : USet E} :
    A.IsDisjoint B = true ↔ ∀ x, ¬(x ∈ A.set ∧ x ∈ B.set) := by
  simp only [USet.IsDisjoint, List.all_eq_true, List.elem_eq_mem,
    Bool.not_eq_eq_eq_not, Bool.not_true, decide_eq_false_iff_not]
  constructor
  · intro h x ⟨hA, hB⟩
    exact h x hA hB
  · intro h x hA hB
    exact h x ⟨hA, hB⟩

omit [DecidableEq E] in
theorem USet.IsEmpty_iff {A : USet E} :
    A.IsEmpty = true ↔ A.set = [] := by
  simp [USet.IsEmpty, List.length_eq_zero]

theorem USet.Equal_iff {A B : USet E} (hA : A.set.Nodup)
    (hB : B.set.Nodup) :
    A.Equal B = true ↔ ∀ x, x ∈ A.set ↔ x ∈ B.set :=
  mapsEqual_iff hA hB

/-- C3: Union, Intersection, and SymmetricDifference are each commutative
up to Equal: for all sets A and B (reachable sets, i.e. with duplicate-free
backing stores), `A.Union(B).Equal(B.Union(A))`,
`A.Intersection(B).Equal(B.Intersection(A))` and
`A.SymmetricDifference(B).Equal(B.SymmetricDifference(A))` hold. -/
theorem claimC3_algebra_commutative (A B : USet E)
    (hA : A.set.Nodup) (hB : B.set.Nodup) :
    (A.Union B).Equal (B.Union A) = true ∧
    (A.Intersection B).Equal (B.Intersection A) = true ∧
    (A.SymmetricDifference B).Equal (B.SymmetricDifference A) = true := by
  refine ⟨?_, ?_, ?_⟩
  · exact (USet.Equal_iff (USet.nodup_Union hA) (USet.nodup_Union hB)).mpr
      fun x => by rw [USet.mem_Union, USet.mem_Union]; tauto
  · exact (USet.Equal_iff USet.nodup_Intersection
      USet.nodup_Intersection).mpr
      fun x => by rw [USet.mem_Intersection, USet.mem_Intersection]; tauto
  · exact (USet.Equal_iff USet.nodup_SymmetricDifference
      USet.nodup_SymmetricDifference).mpr
      fun x => by
        rw [USet.mem_SymmetricDifference, USet.mem_SymmetricDifference]
        tauto

theorem claimC3_algebra_commutative_witness :
    ((USet.mk [1, 2]).Union ⟨[2, 3]⟩).Equal ((USet.mk [2, 3]).Union
      ⟨[1, 2]⟩) = true ∧
    ((USet.mk [1, 2]).Intersection ⟨[2, 3]⟩).Equal
      ((USet.mk [2, 3]).Intersection ⟨[1, 2]⟩) = true ∧
    ((USet.mk [1, 2]).SymmetricDifference ⟨[2, 3]⟩).Equal
      ((USet.mk [2, 3]).SymmetricDifference ⟨[1, 2]⟩) = true :=
  claimC3_algebra_commutative (E := Nat) ⟨[1, 2]⟩ ⟨[2, 3]⟩
    (by decide) (by decide)

/-- C4: SymmetricDifference contains exactly the elements in exactly one
of the two sets, and is Equal to the union of the two one-sided
differences, `A.Difference(B).Union(B.Difference(A))`. -/
theorem claimC4_symmdiff_exactly_one (A B : USet E) :
    (∀ x, (A.SymmetricDifference B).Contains x = true ↔
      ((A.Contains x = true ∧ B.Contains x = false) ∨
        (B.Contains x = true ∧ A.Contains x = false))) ∧
    (A.SymmetricDifference B).Equal
      ((A.Difference B).Union (B.Difference A)) = true := by
  constructor
  · intro x
    simp only [USet.Contains_iff, USet.mem_SymmetricDifference]
    constructor
    · rintro (⟨hA, hB⟩ | ⟨hB, hA⟩)
      · exact Or.inl ⟨hA, by simpa [USet.Contains] using hB⟩
      · exact Or.inr ⟨hB, by simpa [USet.Contains] using hA⟩
    · rintro (⟨hA, hB⟩ | ⟨hB, hA⟩)
      · exact Or.inl ⟨hA, by simpa [USet.Contains] using hB⟩
      · exact Or.inr ⟨hB, by simpa [USet.Contains] using hA⟩
  · refine (USet.Equal_iff USet.nodup_SymmetricDifference
      (USet.nodup_Union USet.nodup_Difference)).mpr fun x => ?_
    rw [USet.mem_SymmetricDifference, USet.mem_Union,
      USet.mem_Difference, USet.mem_Difference]

/-- C5: IsSupersetOf is the exact logical converse of IsSubsetOf —
`A.IsSubsetOf(B) == B.IsSupersetOf(A)` for all A, B — and an empty set is
a subset of every set. -/
theorem claimC5_subset_converse (A B : USet E) :
    A.IsSubsetOf B = B.IsSupersetOf A ∧
    (A.IsEmpty = true → A.IsSubsetOf B = true) := by
  refine ⟨rfl, fun h => ?_⟩
  rw [USet.IsSubsetOf_iff]
  intro x hx
  rw [USet.IsEmpty_iff.mp h] at hx
  exact absurd hx (List.not_mem_nil x)

theorem claimC5_subset_converse_witness :
    (USet.mk ([] : List Nat)).IsSubsetOf ⟨[7]⟩ =
      (USet.mk [7]).IsSupersetOf ⟨[]⟩ ∧
    ((USet.mk ([] : List Nat)).IsEmpty = true →
      (USet.mk ([] : List Nat)).IsSubsetOf ⟨[7]⟩ = true) :=
  claimC5_subset_converse (E := Nat) ⟨[]⟩ ⟨[7]⟩

/-- C6: IsDisjoint holds exactly when no element belongs to both sets;
consequently a set is disjoint from itself exactly when it is empty. -/
theorem claimC6_disjoint (A B : USet E) :
    (A.IsDisjoint B = true ↔
      ∀ x, ¬(A.Contains x = true ∧ B.Contains x = true)) ∧
    (A.IsDisjoint A = true ↔ A.IsEmpty = true) := by
  constructor
  · rw [USet.IsDisjoint_iff]
    constructor
    · intro h x ⟨hA, hB⟩
      exact h x ⟨USet.Contains_iff.mp hA, USet.Contains_iff.mp hB⟩
    · intro h x ⟨hA, hB⟩
      exact h x ⟨USet.Contains_iff.mpr hA, USet.Contains_iff.mpr hB⟩
  · rw [USet.IsDisjoint_iff, USet.IsEmpty_iff,
      List.eq_nil_iff_forall_not_mem]
    constructor
    · intro h x hx
      exact h x ⟨hx, hx⟩
    · intro h x ⟨hx, _⟩
      exact h x hx

/-- C9: New builds a set containing exactly the distinct input elements
(duplicates collapse: the backing store is duplicate-free; zero elements
yield a valid empty set), and the ToSlice of that set, viewed again as a
set, equals the distinct elements of the original input. -/
theorem claimC9_roundtrip (elements : List E) :
    (∀ x, (USet.New elements).Contains x = true ↔ x ∈ elements) ∧
    (USet.New elements).set.Nodup ∧
    (USet.New ([] : List E)).IsEmpty = true ∧
    (USet.New ((USet.New elements).ToSlice)).Equal
      (USet.New elements) = true := by
  refine ⟨fun x => ?_, USet.nodup_New, rfl, ?_⟩
  · rw [USet.Contains_iff, USet.mem_New]
  · refine (USet.Equal_iff USet.nodup_New USet.nodup_New).mpr fun x => ?_
    rw [USet.mem_New, USet.ToSlice, USet.mem_New]

theorem OSet.Equal_mem_iff {A B : OSet E} (hA : A.set.Nodup)
    (hB : B.set.Nodup) :
    A.Equal B = true ↔ ∀ x, x ∈ A.set ↔ x ∈ B.set :=
  mapsEqual_iff hA hB

omit [DecidableEq E] in
theorem OSet.sorted_ToSlice [LinearOrder E] (s : OSet E) :
    List.Sorted (· ≤ ·) s.ToSlice :=
  List.sorted_insertionSort _ s.set

omit [DecidableEq E] in
theorem OSet.perm_ToSlice [LinearOrder E] (s : OSet E) :
    List.Perm s.ToSlice s.set :=
  List.perm_insertionSort _ s.set

omit [DecidableEq E] in
theorem insertionSort_of_sorted [LinearOrder E] {l : List E}
    (h : List.Sorted (· ≤ ·) l) : List.insertionSort (· ≤ ·) l = l :=
  List.eq_of_perm_of_sorted (List.perm_insertionSort _ l)
    (List.sorted_insertionSort _ l) h

omit [DecidableEq E] in
theorem OSet.ToSlice_eq_of_mem_iff [LinearOrder E] {s₁ s₂ : OSet E}
    (h₁ : s₁.set.Nodup) (h₂ : s₂.set.Nodup)
    (h : ∀ x, x ∈ s₁.set ↔ x ∈ s₂.set) : s₁.ToSlice = s₂.ToSlice :=
  List.eq_of_perm_of_sorted
    (((OSet.perm_ToSlice s₁).trans
      ((List.perm_ext_iff_of_nodup h₁ h₂).mpr h)).trans
      (OSet.perm_ToSlice s₂).symm)
    (OSet.sorted_ToSlice s₁) (OSet.sorted_ToSlice s₂)

theorem OSet.StringRep_deterministic [LinearOrder E] (g : E → String)
    (t : Nat) {s₁ s₂ : OSet E} (h₁ : s₁.set.Nodup) (h₂ : s₂.set.Nodup)
    (heq : s₁.Equal s₂ = true) :
    OSet.StringRep g t s₁ = OSet.StringRep g t s₂ := by
  have hmem := (OSet.Equal_mem_iff h₁ h₂).mp heq
  have hperm := (List.perm_ext_iff_of_nodup h₁ h₂).mpr hmem
  have hts : s₁.ToSlice = s₂.ToSlice :=
    OSet.ToSlice_eq_of_mem_iff h₁ h₂ hmem
  unfold OSet.StringRep
  rw [hperm.length_eq, hts]

omit [DecidableEq E] in
theorem OSet.StringRep_renders_sorted [LinearOrder E] (g : E → String)
    (t : Nat) (s : OSet E) (h : s.Len ≤ t) :
    OSet.StringRep g t s = renderElems g s.ToSlice := by
  have h' : ¬ s.set.length > t := Nat.not_lt.mpr h
  unfold OSet.StringRep
  rw [if_neg h', insertionSort_of_sorted (OSet.sorted_ToSlice s)]

omit [DecidableEq E] in
theorem renderFold_chars {f : E → String} {c : Char} (l : List E) :
    ∀ acc : String × String,
      c ∈ ((l.foldl (fun acc e => (acc.1 ++ acc.2 ++ f e, " ")) acc).1).data
      → c ∈ acc.1.data ∨ c ∈ acc.2.data ∨ c = ' '
        ∨ ∃ e ∈ l, c ∈ (f e).data := by
  induction l with
  | nil =>
    intro acc h
    exact Or.inl h
  | cons e es ih =>
    intro acc h
    rcases ih _ h with h' | h' | h' | ⟨e', he', hc'⟩
    · rw [String.data_append] at h'
      rcases List.mem_append.mp h' with h'' | h''
      · rw [String.data_append] at h''
        rcases List.mem_append.mp h'' with h3 | h3
        · exact Or.inl h3
        · exact Or.inr (Or.inl h3)
      · exact Or.inr (Or.inr (Or.inr ⟨e, List.mem_cons_self e es, h''⟩))
    · exact Or.inr (Or.inr (Or.inl (by simpa using h')))
    · exact Or.inr (Or.inr (Or.inl h'))
    · exact Or.inr (Or.inr (Or.inr ⟨e', List.mem_cons_of_mem e he', hc'⟩))

omit [DecidableEq E] in
theorem renderElems_chars {f : E → String} {l : List E} {c : Char}
    (hc : c ∈ (renderElems f l).data) :
    c = '\x7b' ∨ c = '\x7d' ∨ c = ' ' ∨ ∃ e ∈ l, c ∈ (f e).data := by
  unfold renderElems at hc
  rw [String.data_append] at hc
  rcases List.mem_append.mp hc with h | h
  · rcases renderFold_chars l _ h with h' | h' | h' | h'
    · exact Or.inl (by simpa using h')
    · exact absurd h' (by simp)
    · exact Or.inr (Or.inr (Or.inl h'))
    · exact Or.inr (Or.inr (Or.inr h'))
  · exact Or.inr (Or.inl (by simpa using h))

/-- C2: under the truncating display policy, String() yields
`{…N elements…}` with N the element count exactly when the count exceeds
the threshold (the current value of `MaxDisplayableElements`); at or
below the threshold every element is enumerated (ascending).  The
hypothesis asks that the host rendering of the stored elements never
contains the ellipsis character, which holds for all numeric and quoted
renderings. -/
theorem claimC2_truncation {F : Type} [DecidableEq F] [LinearOrder F]
    (g : F → String) (t : Nat) (s : OSet F)
    (hg : ∀ e ∈ s.set, '…' ∉ (g e).data) :
    (OSet.StringRep g t s = "\x7b…" ++ toString s.Len ++ " elements…\x7d"
      ↔ s.Len > t) ∧
    (s.Len ≤ t → OSet.StringRep g t s = renderElems g s.ToSlice) := by
  refine ⟨⟨?_, ?_⟩, OSet.StringRep_renders_sorted g t s⟩
  · intro h
    by_contra hnot
    have hle : s.Len ≤ t := Nat.not_lt.mp hnot
    rw [OSet.StringRep_renders_sorted g t s hle] at h
    have hmem : '…' ∈ (renderElems g s.ToSlice).data := by
      rw [h, String.data_append, String.data_append]
      exact List.mem_append.mpr (Or.inl (List.mem_append.mpr
        (Or.inl (by decide))))
    rcases renderElems_chars hmem with h' | h' | h' | ⟨e, he, hc⟩
    · exact absurd h' (by decide)
    · exact absurd h' (by decide)
    · exact absurd h' (by decide)
    · exact hg e ((OSet.perm_ToSlice s).mem_iff.mp he) hc
  · intro h
    have h' : s.set.length > t := h
    unfold OSet.StringRep
    rw [if_pos h']
    rfl

theorem claimC2_truncation_witness :
    OSet.StringRep (fun n : Nat => toString n) 100 ⟨List.range 111⟩ =
      "\x7b…111 elements…\x7d" :=
  ((claimC2_truncation (fun n : Nat => toString n) 100 ⟨List.range 111⟩
    (by decide)).1.mpr (by decide)).trans (by decide)

/-- C1 counterexample: the comparable variant's `String()` is not a
function of the unchanged set alone.  `[1, 2]` and `[2, 1]` are both
admissible iteration orders of the same two-element set (Go specifies map
iteration order as unspecified and not stable from one iteration to the
next), yet they render different strings, so two calls with no
intervening mutation are not guaranteed identical output. -/
theorem claimC1_counterexample :
    (USet.mk [1, 2]).IterAdmissible [1, 2] ∧
    (USet.mk [1, 2]).IterAdmissible [2, 1] ∧
    (USet.mk [1, 2]).StringRepAt (fun n : Nat => toString n) [1, 2] ≠
      (USet.mk [1, 2]).StringRepAt (fun n : Nat => toString n) [2, 1] :=
  ⟨List.Perm.refl _, List.Perm.swap 1 2 [], by decide⟩

omit [DecidableEq E] in
/-- C1 (amended): the ordered variant's rendering enumerates the elements
sorted ascending and its String() is referentially transparent — it
depends only on the membership of the set, not on the backing map's
enumeration order.  The comparable variant's String() output is a
function of the iteration order the runtime chooses: calls that observe
the same enumeration order yield identical output, but Go does not fix
that order across calls. -/
theorem claimC1_string_rendering (f : E → String) {F : Type}
    [DecidableEq F] [LinearOrder F] (g : F → String) (t : Nat) :
    (∀ (s₁ s₂ : USet E) (o₁ o₂ : List E), s₁.IterAdmissible o₁ →
      s₂.IterAdmissible o₂ → o₁ = o₂ →
      s₁.StringRepAt f o₁ = s₂.StringRepAt f o₂) ∧
    (∀ s : OSet F, List.Sorted (· ≤ ·) s.ToSlice ∧
      List.Perm s.ToSlice s.set) ∧
    (∀ s : OSet F, s.Len ≤ t →
      OSet.StringRep g t s = renderElems g s.ToSlice) ∧
    (∀ s₁ s₂ : OSet F, s₁.set.Nodup → s₂.set.Nodup →
      s₁.Equal s₂ = true →
      OSet.StringRep g t s₁ = OSet.StringRep g t s₂) := by
  refine ⟨?_, ?_, OSet.StringRep_renders_sorted g t, ?_⟩
  · intro s₁ s₂ o₁ o₂ _ _ ho
    rw [ho]
    rfl
  · exact fun s => ⟨OSet.sorted_ToSlice s, OSet.perm_ToSlice s⟩
  · exact fun s₁ s₂ h₁ h₂ heq => OSet.StringRep_deterministic g t h₁ h₂ heq

theorem claimC1_string_rendering_witness :
    OSet.StringRep (fun n : Nat => toString n) 100 ⟨[2, 1]⟩ =
      OSet.StringRep (fun n : Nat => toString n) 100 ⟨[1, 2]⟩ :=
  (claimC1_string_rendering (fun n : Nat => toString n)
    (fun n : Nat => toString n) 100).2.2.2 ⟨[2, 1]⟩ ⟨[1, 2]⟩
    (by decide) (by decide) (by decide)

omit [DecidableEq E] in
theorem readMap_writeMap_self {h : Heap E} {r : Nat} {l : List E}
    (hr : r < h.length) : readMap (writeMap h r l) r = l := by
  simp [readMap, writeMap, List.getD_eq_getElem?_getD, List.getElem?_set, hr]

omit [DecidableEq E] in
theorem readMap_writeMap_ne {h : Heap E} {r r' : Nat} {l : List E}
    (hne : r ≠ r') : readMap (writeMap h r' l) r = readMap h r := by
  simp [readMap, writeMap, List.getD_eq_getElem?_getD, List.getElem?_set,
    hne.symm]

omit [DecidableEq E] in
theorem readMap_append {h : Heap E} {r : Nat} {l : List E}
    (hr : r < h.length) : readMap (h ++ [l]) r = readMap h r := by
  simp [readMap, List.getD_eq_getElem?_getD, List.getElem?_append, hr]

omit [DecidableEq E] in
theorem readMap_append_length {h : Heap E} {l : List E} :
    readMap (h ++ [l]) h.length = l := by
  simp [readMap, List.getD_eq_getElem?_getD]

omit [DecidableEq E] in
theorem readMap_frame_alloc_write {h : Heap E} {w l : List E} {r : Nat}
    (hr : r < h.length) :
    readMap (writeMap (h ++ [l]) h.length w) r = readMap h r := by
  rw [readMap_writeMap_ne (ne_of_lt hr), readMap_append hr]

/-- C7: Clone returns an equal set backed by an independent, freshly
allocated copy of the storage: the clone's reference is distinct from the
original's, its content equals the original's, and mutation through
either reference (Add, Delete, Clear, Unite) leaves the other's backing
map — hence its membership and Len — unchanged: mutating the clone does
not change the original, and vice versa. -/
theorem claimC7_clone_independent (h : Heap E) (r : Nat)
    (hr : r < h.length) :
    (USet.mk (readMap (hClone h r).1 (hClone h r).2)).Equal
      ⟨readMap (hClone h r).1 r⟩ = true ∧
    (hClone h r).2 ≠ r ∧
    (∀ elements, readMap
      (hAdd (hClone h r).1 (hClone h r).2 elements) r = readMap h r) ∧
    (∀ elements, readMap
      (hDelete (hClone h r).1 (hClone h r).2 elements) r = readMap h r) ∧
    readMap (hClear (hClone h r).1 (hClone h r).2) r = readMap h r ∧
    (∀ rOther, rOther < h.length → readMap
      (hUnite (hClone h r).1 (hClone h r).2 rOther) r = readMap h r) ∧
    (∀ elements, readMap (hAdd (hClone h r).1 r elements) (hClone h r).2
      = readMap (hClone h r).1 (hClone h r).2) ∧
    (∀ elements, readMap (hDelete (hClone h r).1 r elements) (hClone h r).2
      = readMap (hClone h r).1 (hClone h r).2) ∧
    readMap (hClear (hClone h r).1 r) (hClone h r).2
      = readMap (hClone h r).1 (hClone h r).2 ∧
    (∀ rOther, readMap (hUnite (hClone h r).1 r rOther) (hClone h r).2
      = readMap (hClone h r).1 (hClone h r).2) := by
  have hne : (hClone h r).2 ≠ r := ne_of_gt hr
  refine ⟨?_, hne, fun _ => ?_, fun _ => ?_, ?_, fun rOther _ => ?_,
    fun _ => ?_, fun _ => ?_, ?_, fun rOther => ?_⟩
  · have hc : readMap (hClone h r).1 (hClone h r).2 =
        readMap (hClone h r).1 r := by
      show readMap (h ++ [readMap h r]) h.length =
        readMap (h ++ [readMap h r]) r
      rw [readMap_append_length, readMap_append hr]
    rw [USet.Equal, hc]
    exact mapsEqual_self
  · rw [hAdd, readMap_writeMap_ne hne.symm]
    exact readMap_append hr
  · rw [hDelete, readMap_writeMap_ne hne.symm]
    exact readMap_append hr
  · rw [hClear, readMap_writeMap_ne hne.symm]
    exact readMap_append hr
  · rw [hUnite, readMap_writeMap_ne hne.symm]
    exact readMap_append hr
  · rw [hAdd, readMap_writeMap_ne hne]
  · rw [hDelete, readMap_writeMap_ne hne]
  · rw [hClear, readMap_writeMap_ne hne]
  · rw [hUnite, readMap_writeMap_ne hne]

theorem claimC7_clone_independent_witness :
    readMap (hAdd (hClone ([[1, 2], [2, 3]] : Heap Nat) 0).1
      (hClone ([[1, 2], [2, 3]] : Heap Nat) 0).2 [9]) 0 =
      readMap ([[1, 2], [2, 3]] : Heap Nat) 0 ∧
    (hClone ([[1, 2], [2, 3]] : Heap Nat) 0).2 ≠ 0 :=
  ⟨(claimC7_clone_independent ([[1, 2], [2, 3]] : Heap Nat) 0
      (by decide)).2.2.1 [9],
    (claimC7_clone_independent ([[1, 2], [2, 3]] : Heap Nat) 0
      (by decide)).2.1⟩

/-- C8: Difference, SymmetricDifference, Intersection, and Union leave
the backing maps of both operands unchanged; Unite leaves `other`
unchanged and makes the receiver's map hold exactly the union of the two
prior memberships. -/
theorem claimC8_algebra_pure (h : Heap E) (rA rB : Nat)
    (hA : rA < h.length) (hB : rB < h.length) :
    (readMap (hDifference h rA rB).1 rA = readMap h rA ∧
      readMap (hDifference h rA rB).1 rB = readMap h rB) ∧
    (readMap (hSymmetricDifference h rA rB).1 rA = readMap h rA ∧
      readMap (hSymmetricDifference h rA rB).1 rB = readMap h rB) ∧
    (readMap (hIntersection h rA rB).1 rA = readMap h rA ∧
      readMap (hIntersection h rA rB).1 rB = readMap h rB) ∧
    (readMap (hUnion h rA rB).1 rA = readMap h rA ∧
      readMap (hUnion h rA rB).1 rB = readMap h rB) ∧
    readMap (hUnite h rA rB) rB = readMap h rB ∧
    (∀ x, x ∈ readMap (hUnite h rA rB) rA ↔
      x ∈ readMap h rA ∨ x ∈ readMap h rB) := by
  refine ⟨⟨readMap_frame_alloc_write hA, readMap_frame_alloc_write hB⟩,
    ⟨readMap_frame_alloc_write hA, readMap_frame_alloc_write hB⟩,
    ⟨readMap_frame_alloc_write hA, readMap_frame_alloc_write hB⟩,
    ⟨readMap_frame_alloc_write hA, readMap_frame_alloc_write hB⟩,
    ?_, fun x => ?_⟩
  · by_cases hab : rA = rB
    · subst hab
      rw [hUnite, readMap_writeMap_self hA,
        foldl_insertKey_of_subset fun x hx => hx]
    · rw [hUnite, readMap_writeMap_ne fun hh => hab hh.symm]
  · by_cases hab : rA = rB
    · subst hab
      rw [hUnite, readMap_writeMap_self hA,
        foldl_insertKey_of_subset fun y hy => hy]
      tauto
    · rw [hUnite, readMap_writeMap_self hA, mem_foldl_insertKey]

theorem claimC8_algebra_pure_witness :
    (readMap (hDifference ([[1, 2], [2, 3]] : Heap Nat) 0 1).1 0 =
        readMap ([[1, 2], [2, 3]] : Heap Nat) 0 ∧
      readMap (hDifference ([[1, 2], [2, 3]] : Heap Nat) 0 1).1 1 =
        readMap ([[1, 2], [2, 3]] : Heap Nat) 1) ∧
    readMap (hUnite ([[1, 2], [2, 3]] : Heap Nat) 0 1) 1 =
      readMap ([[1, 2], [2, 3]] : Heap Nat) 1 :=
  ⟨(claimC8_algebra_pure ([[1, 2], [2, 3]] : Heap Nat) 0 1
      (by decide) (by decide)).1,
    (claimC8_algebra_pure ([[1, 2], [2, 3]] : Heap Nat) 0 1
      (by decide) (by decide)).2.2.2.2.1⟩

/-- C10: `New` always allocates the backing map (even with zero elements),
so on New-constructed sets the write operations (Add, Unite, Union) never
panic and the algebra operations return allocated results; on the
zero-value set (nil backing map) `Add` with at least one element panics,
while Len, Contains, Delete, Clear, iteration and String treat the set as
empty without panicking. -/
theorem claimC10_nil_map_safety (f : E → String)
    (elements more : List E) (other : ZSet E) (x : E) (xs : List E) :
    (ZSet.New elements).set.isSome = true ∧
    ((ZSet.New elements).Add more).isSome = true ∧
    ((ZSet.New elements).Unite other).isSome = true ∧
    ((ZSet.New elements).Union other).isSome = true ∧
    ((ZSet.New elements).Difference other).set.isSome = true ∧
    ((ZSet.New elements).SymmetricDifference other).set.isSome = true ∧
    ((ZSet.New elements).Intersection other).set.isSome = true ∧
    ZSet.Len (E := E) ⟨none⟩ = 0 ∧
    ZSet.IsEmpty (E := E) ⟨none⟩ = true ∧
    ZSet.Contains (E := E) ⟨none⟩ x = false ∧
    ZSet.Delete (E := E) ⟨none⟩ xs = ⟨none⟩ ∧
    ZSet.Clear (E := E) ⟨none⟩ = ⟨none⟩ ∧
    ZSet.All (E := E) ⟨none⟩ = [] ∧
    ZSet.StringRep f ⟨none⟩ = "\x7b\x7d" ∧
    ZSet.Add (E := E) ⟨none⟩ (x :: xs) = none := by
  refine ⟨rfl, rfl, rfl, rfl, rfl, rfl, rfl, rfl, rfl, ?_, ?_, rfl, rfl,
    ?_, rfl⟩
  · simp [ZSet.Contains, ZSet.keys]
  · simp [ZSet.Delete]
  · show ("\x7b" ++ "" ++ "\x7d" : String) = "\x7b\x7d"
    decide
